import Mathlib

/-
Verification of the tw_bitcoin transaction builder (src/rust/tw_bitcoin/src/lib.rs).

The embedding translates the builder, its configuration operations and the
signing pipeline (sign_inputs / sign_inputs_fn) into Lean.  Satoshi amounts
(u64 in the source) are naturals, and every u64 addition the source performs
on them (the two summation loops and the + miner_fee of the balance check)
is embedded as addition modulo 2^64, the release-profile wrapping semantics
of Rust integer addition (a debug build instead aborts at the same
instruction on overflow).  Byte buffers are lists of naturals.  The source's
single error value Error::Todo is tagged in the embedding by the check that
produced it, and Rust panics (unwrap on None, the unconditional abort in the
dispatch closure) are modelled as explicit failure outcomes tagged by their
site, so that theorems can speak about the reason a signing run fails.
-/

namespace TwBitcoin

/-- Byte sequence standing for a serialized script (ScriptBuf in the source). -/
abbrev ScriptBuf := List Nat

/-- Reference to a previous transaction output (the bitcoin crate's OutPoint). -/
structure OutPoint where
  txid : Nat
  vout : Nat
deriving DecidableEq

/-- InputContext from lib.rs lines 408-419: the common fields every spendable
input carries.  The value is optional, exactly as in the source. -/
structure InputContext where
  previous_output : OutPoint
  value : Option Nat
  script_pubkey : ScriptBuf
  sequence : Nat
  witness : List (List Nat)
deriving DecidableEq

/-- Modelled from the spec: the TxInput variant set of input.rs (which is not
under src/).  A closed variant set P2PKH, P2WPKH, P2TRKeyPath, P2TRScriptPath
(the last additionally carries the revealed script and its control-block
data) and NonStandard; each variant owns one InputContext. -/
inductive TxInput
  | p2pkh (ctx : InputContext)
  | p2wpkh (ctx : InputContext)
  | p2tr_key_path (ctx : InputContext)
  | p2tr_script_path (ctx : InputContext) (script : ScriptBuf) (control_block : List Nat)
  | non_standard (ctx : InputContext)
deriving DecidableEq

/-- Modelled from the spec: input.rs's ctx() accessor, the InputContext owned
by each variant (used by lib.rs as input.ctx()). -/
def TxInput.ctx : TxInput → InputContext
  | .p2pkh c => c
  | .p2wpkh c => c
  | .p2tr_key_path c => c
  | .p2tr_script_path c _ _ => c
  | .non_standard c => c

/-- Modelled from the spec: input.rs's satoshis() accessor, the optional value
carried by the input's context (used by lib.rs as input.satoshis()). -/
def TxInput.satoshis (i : TxInput) : Option Nat :=
  (TxInput.ctx i).value

/-- Whether the input is one of the two taproot variants (the discrimination
performed by the match in TransactionBuilder::add_input, lib.rs 204-207). -/
def TxInput.is_taproot : TxInput → Bool
  | .p2tr_key_path _ => true
  | .p2tr_script_path _ _ _ => true
  | _ => false

/-- Whether the input is the NonStandard variant. -/
def TxInput.is_non_standard : TxInput → Bool
  | .non_standard _ => true
  | _ => false

/-- Modelled from the spec: the TxOutput of output.rs (not under src/), an
amount in minimal units plus a destination script. -/
structure TxOutput where
  satoshis : Nat
  script_pubkey : ScriptBuf
deriving DecidableEq

/-- The bitcoin crate's TxOut: value plus script_pubkey. -/
structure TxOut where
  value : Nat
  script_pubkey : ScriptBuf
deriving DecidableEq

/-- The bitcoin crate's TxIn: previous output, script_sig, sequence, witness. -/
structure TxIn where
  previous_output : OutPoint
  script_sig : ScriptBuf
  sequence : Nat
  witness : List (List Nat)
deriving DecidableEq

/-- Absolute lock time; the source only ever constructs the Blocks form
(LockTime::Blocks(Height)), with the height as a plain number. -/
inductive LockTime
  | blocks (height : Nat)
deriving DecidableEq

/-- The bitcoin crate's Transaction: version, lock time, inputs, outputs. -/
structure Transaction where
  version : Int
  lock_time : LockTime
  input : List TxIn
  output : List TxOut
deriving DecidableEq

/-- Modelled from the rust-bitcoin crate (external dependency): the constructor
absolute::Height::from_consensus succeeds exactly for consensus values below
the lock-time threshold 500000000 (larger values denote wall-clock times,
not block heights). -/
def Height.from_consensus (n : Nat) : Option Nat :=
  if n < 500000000 then some n else none

/-- Modelled from the spec: input.rs's TxIn::from conversion (not under src/).
The skeleton holds one input entry per accumulated input, previous output and
sequence only, with no script and no witness yet. -/
def TxIn.from_input (i : TxInput) : TxIn :=
  { previous_output := (TxInput.ctx i).previous_output
    script_sig := []
    sequence := (TxInput.ctx i).sequence
    witness := [] }

/-- Modelled from the spec: output.rs's TxOut::from conversion (not under
src/), carrying the output's value and destination script. -/
def TxOut.from_output (o : TxOutput) : TxOut :=
  { value := o.satoshis, script_pubkey := o.script_pubkey }

/-- Network selector for address derivation. -/
inductive Network
  | bitcoin
  | testnet
  | signet
  | regtest
deriving DecidableEq

/-- Derived address object; only the witness form is needed by the claims. -/
inductive Address
  | wpkh (hash : Nat) (network : Network)
deriving DecidableEq

/-- Modelled from the rust-bitcoin crate (external dependency): a public key
together with its compression flag; the underlying secp256k1 point is
abstracted as a natural number. -/
structure PublicKey where
  compressed : Bool
  inner : Nat
deriving DecidableEq

/-- Modelled from the rust-bitcoin crate: PublicKey::new wraps a secp256k1 key
as a compressed public key. -/
def PublicKey.new (inner : Nat) : PublicKey :=
  { compressed := true, inner := inner }

/-- Modelled from the rust-bitcoin crate: wpubkey_hash() is Some exactly for
compressed keys (the hash itself is abstracted). -/
def PublicKey.wpubkey_hash (p : PublicKey) : Option Nat :=
  if p.compressed then some p.inner else none

/-- Modelled from the rust-bitcoin crate: Address::p2wpkh, which (quoting the
comment in lib.rs line 104) will only return an Error if an uncompressed
public key is provided. -/
def Address.p2wpkh (p : PublicKey) (n : Network) : Except Unit Address :=
  if p.compressed then .ok (.wpkh p.inner n) else .error ()

/-- Modelled from the secp256k1 crate: a keypair, abstracted to the public key
it exposes. -/
structure KeyPair where
  public_key : Nat
deriving DecidableEq

/-- Recipient from lib.rs lines 70-73: a key-material holder. -/
structure Recipient (T : Type) where
  t : T
deriving DecidableEq

/-- Recipient::<PublicKey>::from_keypair, lib.rs lines 76-80. -/
def Recipient.from_keypair (keypair : KeyPair) : Recipient PublicKey :=
  { t := PublicKey.new keypair.public_key }

/-- Recipient::<PublicKey>::public_key, lib.rs lines 81-83. -/
def Recipient.public_key (r : Recipient PublicKey) : PublicKey :=
  r.t

/-- Recipient::<PublicKey>::wpubkey_hash, lib.rs lines 87-91: unwraps the
crate's optional hash; a None here is the panic the source rules out by the
compression invariant, so the embedding returns the option itself. -/
def Recipient.wpubkey_hash (r : Recipient PublicKey) : Option Nat :=
  PublicKey.wpubkey_hash r.t

/-- Recipient::<PublicKey>::segwit_address, lib.rs lines 101-106: unwraps the
crate's address result; a none models the panic on an uncompressed key. -/
def Recipient.segwit_address (r : Recipient PublicKey) (network : Network) : Option Address :=
  match Address.p2wpkh r.t network with
  | .ok a => some a
  | .error _ => none

/-- Error from lib.rs lines 65-68: the source's single error value. -/
inductive Error
  | Todo
deriving DecidableEq

/-- ClaimLocation from claim.rs, modelled from the spec: signed data belongs
either in the legacy script-signature field or in the witness stack. -/
inductive ClaimLocation
  | script (s : ScriptBuf)
  | witness (w : List (List Nat))
deriving DecidableEq

/-- Outcome of one signer invocation.  The panic form models a signer closure
that aborts (the source's unconditional abort for NonStandard inputs inside
the closure sign_inputs passes to sign_inputs_fn). -/
inductive SignerOut
  | ok (c : ClaimLocation)
  | err (e : Error)
  | panic
deriving DecidableEq

/-- Failure of a signing run.  The first four tag the site of a returned
Err(Error::Todo); the last four model Rust panics by their site. -/
inductive Failure
  | missingMinerFee
  | insufficientFunds
  | missingPrevoutValue
  | sighashError
  | signerError
  | panicInputValue
  | panicScriptCode
  | panicValueUnwrap
  | signerPanic
deriving DecidableEq

/-- TransactionSigned from lib.rs lines 388-390. -/
structure TransactionSigned where
  tx : Transaction
deriving DecidableEq

/-- Result of sign_inputs / sign_inputs_fn: a signed transaction or a failure. -/
inductive SignOutcome
  | ok (t : TransactionSigned)
  | fail (f : Failure)
deriving DecidableEq

/-- Whether a signing outcome is a success. -/
def SignOutcome.isOk : SignOutcome → Bool
  | .ok _ => true
  | .fail _ => false

/-- Input entry of the signed transaction at a given index, when signing
succeeded. -/
def signed_input (o : SignOutcome) (k : Nat) : Option TxIn :=
  match o with
  | .ok t => t.tx.input.get? k
  | .fail _ => none

/-- Tagged hash of a revealed taproot script leaf (TapLeafHash::from_script),
abstracted as the pair of its arguments. -/
structure TapLeafHash where
  script : ScriptBuf
  leaf_version : Nat
deriving DecidableEq

/-- TapLeafHash::from_script. -/
def TapLeafHash.from_script (s : ScriptBuf) (v : Nat) : TapLeafHash :=
  { script := s, leaf_version := v }

/-- LeafVersion::TapScript, the fixed leaf-version tag 0xc0. -/
def LeafVersion.tapScript : Nat := 192

/-- Signature digest handed to the signer.  Digests are pure functions of the
transaction shape, the input index and the per-variant arguments (spec's
digest determinism), so the embedding represents a digest by exactly those
arguments instead of by its 32 hash bytes. -/
inductive Message
  | legacy (tx : Transaction) (index : Nat) (script_pubkey : ScriptBuf) (sighash_ty : Nat)
  | segwit (tx : Transaction) (index : Nat) (script_code : ScriptBuf) (value : Nat) (sighash_ty : Nat)
  | taproot_key_spend (tx : Transaction) (index : Nat) (prevouts : List TxOut) (sighash_ty : Nat)
  | taproot_script_spend (tx : Transaction) (index : Nat) (prevouts : List TxOut) (leaf : TapLeafHash) (sighash_ty : Nat)
deriving DecidableEq

/-- Prevout list committed to by a taproot digest, none for the legacy and
segwit digest forms. -/
def message_prevouts : Message → Option (List TxOut)
  | .taproot_key_spend _ _ pv _ => some pv
  | .taproot_script_spend _ _ pv _ _ => some pv
  | _ => none

/-- Modelled from the rust-bitcoin crate: p2wpkh_script_code() on a script,
Some exactly when the script is a 22-byte witness-v0 keyhash program
(OP_0 OP_PUSHBYTES_20 followed by the 20-byte hash), in which case the
classic p2pkh script code over that hash is produced. -/
def p2wpkh_script_code (s : ScriptBuf) : Option ScriptBuf :=
  if s.length = 22 ∧ s.get? 0 = some 0 ∧ s.get? 1 = some 20 then
    some ([118, 169, 20] ++ s.drop 2 ++ [136, 172])
  else none

/-- The bitcoin crate's SighashCache, wrapping the transaction being signed. -/
structure SighashCache where
  tx : Transaction
deriving DecidableEq

/-- Modelled from the rust-bitcoin crate: legacy_signature_hash, which fails
exactly when the input index is out of bounds. -/
def SighashCache.legacy_signature_hash (c : SighashCache) (index : Nat)
    (script_pubkey : ScriptBuf) (sighash_ty : Nat) : Except Unit Message :=
  if index < c.tx.input.length then
    .ok (.legacy c.tx index script_pubkey sighash_ty)
  else .error ()

/-- Modelled from the rust-bitcoin crate: segwit_signature_hash, which fails
exactly when the input index is out of bounds. -/
def SighashCache.segwit_signature_hash (c : SighashCache) (index : Nat)
    (script_code : ScriptBuf) (value : Nat) (sighash_ty : Nat) : Except Unit Message :=
  if index < c.tx.input.length then
    .ok (.segwit c.tx index script_code value sighash_ty)
  else .error ()

/-- Modelled from the rust-bitcoin crate: taproot_key_spend_signature_hash
with Prevouts::All, which fails when the prevout list does not have one entry
per transaction input or the index is out of bounds. -/
def SighashCache.taproot_key_spend_signature_hash (c : SighashCache) (index : Nat)
    (prevouts : List TxOut) (sighash_ty : Nat) : Except Unit Message :=
  if prevouts.length = c.tx.input.length ∧ index < c.tx.input.length then
    .ok (.taproot_key_spend c.tx index prevouts sighash_ty)
  else .error ()

/-- Modelled from the rust-bitcoin crate: taproot_script_spend_signature_hash
with Prevouts::All, failing under the same conditions as the key-spend form. -/
def SighashCache.taproot_script_spend_signature_hash (c : SighashCache) (index : Nat)
    (prevouts : List TxOut) (leaf : TapLeafHash) (sighash_ty : Nat) : Except Unit Message :=
  if prevouts.length = c.tx.input.length ∧ index < c.tx.input.length then
    .ok (.taproot_script_spend c.tx index prevouts leaf sighash_ty)
  else .error ()

/-- SighashCache::into_transaction. -/
def SighashCache.into_transaction (c : SighashCache) : Transaction :=
  c.tx

/-- TransactionBuilder from lib.rs lines 156-165. -/
structure TransactionBuilder where
  version : Int
  lock_time : LockTime
  inputs : List TxInput
  outputs : List TxOutput
  miner_fee : Option Nat
  return_address : Option Address
  contains_taproot : Bool
deriving DecidableEq

/-- Default for TransactionBuilder, lib.rs lines 167-180: version 2, zero
block lock time, no inputs, no outputs, no fee, no return address, no
taproot. -/
def TransactionBuilder.default : TransactionBuilder :=
  { version := 2
    lock_time := .blocks 0
    inputs := []
    outputs := []
    miner_fee := none
    return_address := none
    contains_taproot := false }

/-- TransactionBuilder::new, lib.rs lines 183-185. -/
def TransactionBuilder.new : TransactionBuilder :=
  TransactionBuilder.default

/-- TransactionBuilder::version, lib.rs lines 186-189 (named set_version here
because the structure field is already called version). -/
def TransactionBuilder.set_version (b : TransactionBuilder) (version : Int) : TransactionBuilder :=
  { b with version := version }

/-- TransactionBuilder::lock_time, lib.rs lines 191-194: stores
LockTime::Blocks(Height::from_consensus(height).unwrap()).  The unwrap can
panic, so the embedding returns an option, none modelling the panic. -/
def TransactionBuilder.set_lock_time (b : TransactionBuilder) (height : Nat) : Option TransactionBuilder :=
  (Height.from_consensus height).map fun h => { b with lock_time := .blocks h }

/-- TransactionBuilder::return_address, lib.rs lines 195-198. -/
def TransactionBuilder.set_return_address (b : TransactionBuilder) (address : Address) : TransactionBuilder :=
  { b with return_address := some address }

/-- TransactionBuilder::miner_fee, lib.rs lines 199-202. -/
def TransactionBuilder.set_miner_fee (b : TransactionBuilder) (satoshis : Nat) : TransactionBuilder :=
  { b with miner_fee := some satoshis }

/-- TransactionBuilder::add_input, lib.rs lines 203-211: mark the taproot flag
for the two taproot variants, then push the input. -/
def TransactionBuilder.add_input (b : TransactionBuilder) (input : TxInput) : TransactionBuilder :=
  let b' :=
    match input with
    | .p2tr_key_path _ => { b with contains_taproot := true }
    | .p2tr_script_path _ _ _ => { b with contains_taproot := true }
    | _ => b
  { b' with inputs := b'.inputs ++ [input] }

/-- TransactionBuilder::add_output, lib.rs lines 212-215. -/
def TransactionBuilder.add_output (b : TransactionBuilder) (output : TxOutput) : TransactionBuilder :=
  { b with outputs := b.outputs ++ [output] }

/-- Builders reachable from TransactionBuilder::new (equivalently default) by
chained configuration calls; the lock-time step only applies when the call
returns (its unwrap can panic).  In the source the structure fields are
private, so these are exactly the builders client code can hand to signing. -/
inductive Reachable : TransactionBuilder → Prop
  | new : Reachable TransactionBuilder.new
  | set_version (b : TransactionBuilder) (v : Int) :
      Reachable b → Reachable (b.set_version v)
  | set_lock_time (b b' : TransactionBuilder) (height : Nat) :
      Reachable b → b.set_lock_time height = some b' → Reachable b'
  | set_return_address (b : TransactionBuilder) (a : Address) :
      Reachable b → Reachable (b.set_return_address a)
  | set_miner_fee (b : TransactionBuilder) (sat : Nat) :
      Reachable b → Reachable (b.set_miner_fee sat)
  | add_input (b : TransactionBuilder) (i : TxInput) :
      Reachable b → Reachable (b.add_input i)
  | add_output (b : TransactionBuilder) (o : TxOutput) :
      Reachable b → Reachable (b.add_output o)

/-- Size of the u64 value space. -/
def u64_size : Nat := 18446744073709551616

/-- Release-profile u64 addition: the sum wraps modulo 2^64 on overflow (a
debug build panics at the same addition instead). -/
def u64_add (a b : Nat) : Nat := (a + b) % u64_size

/-- Input-value summation of lib.rs lines 251-257: total_satoshi_inputs is a
u64 accumulator updated with input.satoshis().unwrap(), so a single missing
value panics (none models that panic) and each addition wraps. -/
def sum_inputs_from (acc : Nat) : List TxInput → Option Nat
  | [] => some acc
  | i :: rest =>
    match TxInput.satoshis i with
    | none => none
    | some v => sum_inputs_from (u64_add acc v) rest

/-- The input-value summation started from zero, as the loop does. -/
def sum_inputs (l : List TxInput) : Option Nat :=
  sum_inputs_from 0 l

/-- Output-value summation of lib.rs lines 260-267: a u64 accumulator, each
addition wrapping. -/
def sum_outputs_from (acc : Nat) : List TxOutput → Nat
  | [] => acc
  | o :: rest => sum_outputs_from (u64_add acc o.satoshis) rest

/-- The output-value summation started from zero, as the loop does. -/
def sum_outputs (l : List TxOutput) : Nat :=
  sum_outputs_from 0 l

/-- The boilerplate transaction of lib.rs lines 243-267: version and lock time
from the builder, one TxIn per input, one TxOut per output. -/
def skeleton (b : TransactionBuilder) : Transaction :=
  { version := b.version
    lock_time := b.lock_time
    input := b.inputs.map TxIn.from_input
    output := b.outputs.map TxOut.from_output }

/-- The prevout entry pushed for one input in lib.rs lines 282-285, once its
value is known to be present. -/
def input_prevout (i : TxInput) : TxOut :=
  { value := ((TxInput.ctx i).value).getD 0
    script_pubkey := (TxInput.ctx i).script_pubkey }

/-- The prevout loop of lib.rs lines 281-286: one (value, script_pubkey) entry
per input, failing (Err(Error::Todo) via ok_or) on the first missing value. -/
def prevouts_of : List TxInput → Except Unit (List TxOut)
  | [] => .ok []
  | i :: rest =>
    match (TxInput.ctx i).value with
    | none => .error ()
    | some v =>
      (prevouts_of rest).map fun tl =>
        { value := v, script_pubkey := (TxInput.ctx i).script_pubkey } :: tl

/-- The guarded prevout construction of lib.rs lines 279-287: the list is
built only when the builder's taproot flag is set. -/
def build_prevouts (b : TransactionBuilder) : Except Unit (List TxOut) :=
  if b.contains_taproot then prevouts_of b.inputs else .ok []

/-- Mapping a sighash-computation result into the loop's outcome: an error is
replaced by Err(Error::Todo), tagged sighashError here (the map_err of the
source), a digest is passed on. -/
def wrap_digest (x : Except Unit Message) : Except Failure (Option Message) :=
  match x with
  | .error _ => .error .sighashError
  | .ok m => .ok (some m)

/-- Per-input digest computation: the match arms of lib.rs lines 294-367
without the signer call.  Returns ok none for the NonStandard arm (continue),
the digest for the other arms, and the failure that arm would raise
otherwise.  EcdsaSighashType::All is 1, TapSighashType::Default is 0. -/
def digest_for (cache : SighashCache) (prevouts : List TxOut) (index : Nat) :
    TxInput → Except Failure (Option Message)
  | .p2pkh ctx =>
    wrap_digest (cache.legacy_signature_hash index ctx.script_pubkey 1)
  | .p2wpkh ctx =>
    match p2wpkh_script_code ctx.script_pubkey with
    | none => .error .panicScriptCode
    | some code =>
      match ctx.value with
      | none => .error .panicValueUnwrap
      | some v => wrap_digest (cache.segwit_signature_hash index code v 1)
  | .p2tr_key_path _ =>
    wrap_digest (cache.taproot_key_spend_signature_hash index prevouts 0)
  | .p2tr_script_path _ script _ =>
    wrap_digest (cache.taproot_script_spend_signature_hash index prevouts
      (TapLeafHash.from_script script LeafVersion.tapScript) 0)
  | .non_standard _ => .ok none

/-- The signing loop of lib.rs lines 294-368: walk the inputs in index order,
skip NonStandard, hand each digest to the signer, collect (index, claim)
pairs. -/
def sign_loop (cache : SighashCache) (signer : TxInput → Message → SignerOut)
    (prevouts : List TxOut) : List TxInput → Nat → Except Failure (List (Nat × ClaimLocation))
  | [], _ => .ok []
  | input :: rest, index =>
    match digest_for cache prevouts index input with
    | .error f => .error f
    | .ok none => sign_loop cache signer prevouts rest (index + 1)
    | .ok (some m) =>
      match signer input m with
      | .err _ => .error .signerError
      | .panic => .error .signerPanic
      | .ok claim =>
        (sign_loop cache signer prevouts rest (index + 1)).map fun cs => (index, claim) :: cs

/-- Writing one claim into a transaction input, lib.rs lines 374-381: a Script
claim overwrites script_sig, a Witness claim overwrites the witness stack. -/
def claim_write (c : ClaimLocation) (txin : TxIn) : TxIn :=
  match c with
  | .script s => { txin with script_sig := s }
  | .witness w => { txin with witness := w }

/-- In-place update of the element at one position, leaving the list unchanged
when the position is out of range. -/
def modify_at (f : TxIn → TxIn) : List TxIn → Nat → List TxIn
  | [], _ => []
  | x :: xs, 0 => f x :: xs
  | x :: xs, n + 1 => x :: modify_at f xs n

/-- The assembly loop of lib.rs lines 373-382: apply each collected
(index, claim) pair to the transaction. -/
def apply_claims : Transaction → List (Nat × ClaimLocation) → Transaction
  | tx, [] => tx
  | tx, (index, c) :: rest =>
    apply_claims { tx with input := modify_at (claim_write c) tx.input index } rest

/-- TransactionBuilder::sign_inputs_fn, lib.rs lines 238-385: build the
skeleton, sum input values (panicking on a missing one), sum outputs, require
the miner fee, run the balance check (all three sums being wrapping u64
arithmetic), build the taproot prevouts when the flag is set, run the signing
loop, and apply the collected claims. -/
def TransactionBuilder.sign_inputs_fn (b : TransactionBuilder)
    (signer : TxInput → Message → SignerOut) : SignOutcome :=
  match sum_inputs b.inputs with
  | none => .fail .panicInputValue
  | some total_satoshi_inputs =>
    match b.miner_fee with
    | none => .fail .missingMinerFee
    | some miner_fee =>
      if u64_add (sum_outputs b.outputs) miner_fee > total_satoshi_inputs then
        .fail .insufficientFunds
      else
        match build_prevouts b with
        | .error _ => .fail .missingPrevoutValue
        | .ok prevouts =>
          match sign_loop { tx := skeleton b } signer prevouts b.inputs 0 with
          | .error f => .fail f
          | .ok claims =>
            .ok { tx := apply_claims (SighashCache.into_transaction { tx := skeleton b }) claims }

/-- Modelled from the spec: the TransactionSigner capability of claim.rs (not
under src/), one operation per spending variant, each returning the claim
material (the .0 payload of the claim types) or an error. -/
structure TransactionSigner where
  claim_p2pkh : InputContext → Message → Nat → Except Error ScriptBuf
  claim_p2wpkh : InputContext → Message → Nat → Except Error (List (List Nat))
  claim_p2tr_key_path : InputContext → Message → Nat → Except Error (List (List Nat))
  claim_p2tr_script_path : InputContext → ScriptBuf → List Nat → Message → Nat →
    Except Error (List (List Nat))

/-- The closure sign_inputs passes to sign_inputs_fn, lib.rs lines 220-236:
dispatch on the variant, map claims into their locations, and abort
unconditionally on NonStandard. -/
def dispatch (signer : TransactionSigner) : TxInput → Message → SignerOut :=
  fun input sighash =>
    match input with
    | .p2pkh ctx =>
      match signer.claim_p2pkh ctx sighash 1 with
      | .ok s => .ok (.script s)
      | .error e => .err e
    | .p2wpkh ctx =>
      match signer.claim_p2wpkh ctx sighash 1 with
      | .ok w => .ok (.witness w)
      | .error e => .err e
    | .p2tr_key_path ctx =>
      match signer.claim_p2tr_key_path ctx sighash 0 with
      | .ok w => .ok (.witness w)
      | .error e => .err e
    | .p2tr_script_path ctx script control_block =>
      match signer.claim_p2tr_script_path ctx script control_block sighash 0 with
      | .ok w => .ok (.witness w)
      | .error e => .err e
    | .non_standard _ => .panic

/-- TransactionBuilder::sign_inputs, lib.rs lines 216-237. -/
def TransactionBuilder.sign_inputs (b : TransactionBuilder) (signer : TransactionSigner) : SignOutcome :=
  b.sign_inputs_fn (dispatch signer)

/-- Whether claim material is non-empty (a non-empty script, or a witness
stack with at least one item). -/
def claim_nonempty : ClaimLocation → Bool
  | .script s => !s.isEmpty
  | .witness w => !w.isEmpty

/-- The transaction input resulting from writing the given claim over an
otherwise untouched skeleton entry: a Script claim fills script_sig and
leaves the witness empty, a Witness claim fills the witness and leaves
script_sig empty. -/
def claim_applied (c : ClaimLocation) (txin : TxIn) : Prop :=
  match c with
  | .script s => txin.script_sig = s ∧ txin.witness = []
  | .witness w => txin.script_sig = [] ∧ txin.witness = w

instance {ε α : Type} [DecidableEq ε] [DecidableEq α] : DecidableEq (Except ε α) := fun a b =>
  match a, b with
  | .ok x, .ok y =>
    if h : x = y then .isTrue (by rw [h]) else .isFalse (by intro hc; cases hc; exact h rfl)
  | .error x, .error y =>
    if h : x = y then .isTrue (by rw [h]) else .isFalse (by intro hc; cases hc; exact h rfl)
  | .ok _, .error _ => .isFalse (by intro hc; cases hc)
  | .error _, .ok _ => .isFalse (by intro hc; cases hc)

lemma sum_inputs_from_isSome :
    ∀ (l : List TxInput) (acc : Nat), (∀ i ∈ l, (TxInput.satoshis i).isSome = true) →
      ∃ t, sum_inputs_from acc l = some t := by
  intro l
  induction l with
  | nil => intro acc _; exact ⟨acc, rfl⟩
  | cons i rest ih =>
    intro acc h
    have hi := h i (by simp)
    obtain ⟨v, hv⟩ := Option.isSome_iff_exists.mp hi
    obtain ⟨t, ht⟩ := ih (u64_add acc v) fun j hj => h j (by simp [hj])
    exact ⟨t, by simp [sum_inputs_from, hv, ht]⟩

lemma sum_inputs_isSome {l : List TxInput}
    (h : ∀ i ∈ l, (TxInput.satoshis i).isSome = true) :
    ∃ t, sum_inputs l = some t :=
  sum_inputs_from_isSome l 0 h

lemma prevouts_of_values :
    ∀ {l : List TxInput}, (∀ i ∈ l, ((TxInput.ctx i).value).isSome = true) →
      prevouts_of l = .ok (l.map input_prevout) := by
  intro l
  induction l with
  | nil => intro _; rfl
  | cons i rest ih =>
    intro h
    have hi := h i (by simp)
    obtain ⟨v, hv⟩ := Option.isSome_iff_exists.mp hi
    have hr := ih fun j hj => h j (by simp [hj])
    simp [prevouts_of, hv, hr, Except.map, input_prevout]

lemma digest_for_non_standard (c : SighashCache) (pv : List TxOut) (k : Nat) {i : TxInput}
    (h : TxInput.is_non_standard i = true) : digest_for c pv k i = .ok none := by
  cases i <;> first | rfl | simp [TxInput.is_non_standard] at h

lemma digest_for_some_not_nonstd {c : SighashCache} {pv : List TxOut} {k : Nat} {i : TxInput}
    {m : Message} (h : digest_for c pv k i = .ok (some m)) :
    TxInput.is_non_standard i = false := by
  cases i with
  | non_standard ctx => simp [digest_for] at h
  | p2pkh ctx => rfl
  | p2wpkh ctx => rfl
  | p2tr_key_path ctx => rfl
  | p2tr_script_path ctx s cb => rfl

lemma wrap_digest_error {x : Except Unit Message} {f : Failure}
    (h : wrap_digest x = .error f) : f = .sighashError := by
  cases x
  · simp [wrap_digest] at h
    simp [h]
  · simp [wrap_digest] at h

lemma wrap_digest_ok {x : Except Unit Message} {om : Option Message}
    (h : wrap_digest x = .ok om) : ∃ m, om = some m ∧ x = .ok m := by
  cases x with
  | error e => simp [wrap_digest] at h
  | ok m => exact ⟨m, by simpa [wrap_digest] using h.symm, rfl⟩

lemma digest_for_error_cases {c : SighashCache} {pv : List TxOut} {k : Nat} {i : TxInput}
    {f : Failure} (h : digest_for c pv k i = .error f) :
    f = .sighashError ∨ f = .panicScriptCode ∨ f = .panicValueUnwrap := by
  cases i with
  | p2pkh ctx => exact Or.inl (wrap_digest_error h)
  | p2wpkh ctx =>
    simp only [digest_for] at h
    cases hsc : p2wpkh_script_code ctx.script_pubkey with
    | none => simp only [hsc] at h; cases h; simp
    | some code =>
      simp only [hsc] at h
      cases hv : ctx.value with
      | none => simp only [hv] at h; cases h; simp
      | some v =>
        simp only [hv] at h
        exact Or.inl (wrap_digest_error h)
  | p2tr_key_path ctx => exact Or.inl (wrap_digest_error h)
  | p2tr_script_path ctx s cb => exact Or.inl (wrap_digest_error h)
  | non_standard ctx => simp [digest_for] at h

lemma except_map_ok {ε α β : Type} {f : α → β} {x : Except ε α} {b : β}
    (h : x.map f = .ok b) : ∃ a, x = .ok a ∧ b = f a := by
  cases x with
  | error e => simp [Except.map] at h
  | ok a => exact ⟨a, rfl, by simpa [Except.map] using h.symm⟩

lemma sign_loop_mem_lower {c : SighashCache} {s : TxInput → Message → SignerOut}
    {pv : List TxOut} :
    ∀ (l : List TxInput) (idx : Nat) (cs : List (Nat × ClaimLocation)),
      sign_loop c s pv l idx = .ok cs → ∀ p ∈ cs, idx ≤ p.1 := by
  intro l
  induction l with
  | nil =>
    intro idx cs h p hp
    simp only [sign_loop] at h
    cases h
    simp at hp
  | cons i rest ih =>
    intro idx cs h p hp
    simp only [sign_loop] at h
    cases hd : digest_for c pv idx i with
    | error f => simp only [hd] at h; cases h
    | ok om =>
      simp only [hd] at h
      cases om with
      | none =>
        have := ih (idx + 1) cs h p hp
        omega
      | some m =>
        cases hs : s i m with
        | err e => simp only [hs] at h; cases h
        | panic => simp only [hs] at h; cases h
        | ok claim =>
          simp only [hs] at h
          obtain ⟨cs', hcs', rfl⟩ := except_map_ok h
          rcases List.mem_cons.mp hp with hph | hpt
          · subst hph; simp
          · have := ih (idx + 1) cs' hcs' p hpt
            omega

lemma digest_for_none_nonstd {c : SighashCache} {pv : List TxOut} {k : Nat} {i : TxInput}
    (h : digest_for c pv k i = .ok none) : TxInput.is_non_standard i = true := by
  cases i with
  | non_standard ctx => rfl
  | p2pkh ctx =>
    obtain ⟨m, hm, _⟩ := wrap_digest_ok h
    cases hm
  | p2wpkh ctx =>
    simp only [digest_for] at h
    cases hsc : p2wpkh_script_code ctx.script_pubkey with
    | none => simp only [hsc] at h; cases h
    | some code =>
      simp only [hsc] at h
      cases hv : ctx.value with
      | none => simp only [hv] at h; cases h
      | some v =>
        simp only [hv] at h
        obtain ⟨m, hm, _⟩ := wrap_digest_ok h
        cases hm
  | p2tr_key_path ctx =>
    obtain ⟨m, hm, _⟩ := wrap_digest_ok h
    cases hm
  | p2tr_script_path ctx s cb =>
    obtain ⟨m, hm, _⟩ := wrap_digest_ok h
    cases hm

lemma sign_loop_nonstd_not_mem {c : SighashCache} {s : TxInput → Message → SignerOut}
    {pv : List TxOut} :
    ∀ (l : List TxInput) (idx : Nat) (cs : List (Nat × ClaimLocation)),
      sign_loop c s pv l idx = .ok cs →
      ∀ k i, l.get? k = some i → TxInput.is_non_standard i = true →
        ∀ cl, (idx + k, cl) ∉ cs := by
  intro l
  induction l with
  | nil => intro idx cs h k i hget; simp at hget
  | cons i0 rest ih =>
    intro idx cs h k i hget hns cl hmem
    simp only [sign_loop] at h
    cases k with
    | zero =>
      rw [List.get?_cons_zero] at hget
      injection hget with hi
      subst hi
      rw [digest_for_non_standard c pv idx hns] at h
      have h2 : idx + 1 ≤ idx + 0 :=
        sign_loop_mem_lower rest (idx + 1) cs h (idx + 0, cl) hmem
      omega
    | succ k =>
      rw [List.get?_cons_succ] at hget
      cases hd : digest_for c pv idx i0 with
      | error f => simp only [hd] at h; cases h
      | ok om =>
        simp only [hd] at h
        cases om with
        | none =>
          have := ih (idx + 1) cs h k i hget hns cl
          have harith : idx + (k + 1) = (idx + 1) + k := by omega
          rw [harith] at hmem
          exact this hmem
        | some m =>
          cases hs2 : s i0 m with
          | err e => simp only [hs2] at h; cases h
          | panic => simp only [hs2] at h; cases h
          | ok claim =>
            simp only [hs2] at h
            obtain ⟨cs', hcs', rfl⟩ := except_map_ok h
            rcases List.mem_cons.mp hmem with hph | hpt
            · have : idx + (k + 1) = idx := congrArg Prod.fst hph
              omega
            · have := ih (idx + 1) cs' hcs' k i hget hns cl
              have harith : idx + (k + 1) = (idx + 1) + k := by omega
              rw [harith] at hpt
              exact this hpt

lemma sign_loop_signable {c : SighashCache} {s : TxInput → Message → SignerOut}
    {pv : List TxOut} :
    ∀ (l : List TxInput) (idx : Nat) (cs : List (Nat × ClaimLocation)),
      sign_loop c s pv l idx = .ok cs →
      ∀ k i, l.get? k = some i → TxInput.is_non_standard i = false →
        ∃ m cl, digest_for c pv (idx + k) i = .ok (some m) ∧ s i m = .ok cl ∧
          (idx + k, cl) ∈ cs ∧ ∀ cl', (idx + k, cl') ∈ cs → cl' = cl := by
  intro l
  induction l with
  | nil => intro idx cs h k i hget; simp at hget
  | cons i0 rest ih =>
    intro idx cs h k i hget hns
    simp only [sign_loop] at h
    cases k with
    | zero =>
      rw [List.get?_cons_zero] at hget
      injection hget with hi
      subst hi
      cases hd : digest_for c pv idx i0 with
      | error f => simp only [hd] at h; cases h
      | ok om =>
        simp only [hd] at h
        cases om with
        | none => rw [digest_for_none_nonstd hd] at hns; cases hns
        | some m =>
          cases hs2 : s i0 m with
          | err e => simp only [hs2] at h; cases h
          | panic => simp only [hs2] at h; cases h
          | ok claim =>
            simp only [hs2] at h
            obtain ⟨cs', hcs', rfl⟩ := except_map_ok h
            refine ⟨m, claim, by simpa using hd, hs2, by simp, ?_⟩
            intro cl' hmem
            rcases List.mem_cons.mp hmem with hph | hpt
            · exact (Prod.mk.injEq _ _ _ _).mp hph |>.2
            · have h2 : idx + 1 ≤ idx + 0 :=
                sign_loop_mem_lower rest (idx + 1) cs' hcs' (idx + 0, cl') hpt
              omega
    | succ k =>
      rw [List.get?_cons_succ] at hget
      cases hd : digest_for c pv idx i0 with
      | error f => simp only [hd] at h; cases h
      | ok om =>
        simp only [hd] at h
        cases om with
        | none =>
          obtain ⟨m, cl, h1, h2, h3, h4⟩ := ih (idx + 1) cs h k i hget hns
          have harith : idx + (k + 1) = (idx + 1) + k := by omega
          rw [harith]
          exact ⟨m, cl, h1, h2, h3, h4⟩
        | some m0 =>
          cases hs2 : s i0 m0 with
          | err e => simp only [hs2] at h; cases h
          | panic => simp only [hs2] at h; cases h
          | ok claim0 =>
            simp only [hs2] at h
            obtain ⟨cs', hcs', rfl⟩ := except_map_ok h
            obtain ⟨m, cl, h1, h2, h3, h4⟩ := ih (idx + 1) cs' hcs' k i hget hns
            have harith : idx + (k + 1) = (idx + 1) + k := by omega
            rw [harith]
            refine ⟨m, cl, h1, h2, List.mem_cons.mpr (Or.inr h3), ?_⟩
            intro cl' hmem
            rcases List.mem_cons.mp hmem with hph | hpt
            · have : (idx + 1) + k = idx := congrArg Prod.fst hph
              omega
            · exact h4 cl' hpt

lemma sign_loop_error_cases {c : SighashCache} {s : TxInput → Message → SignerOut}
    {pv : List TxOut} :
    ∀ (l : List TxInput) (idx : Nat) (f : Failure),
      sign_loop c s pv l idx = .error f →
      f = .sighashError ∨ f = .panicScriptCode ∨ f = .panicValueUnwrap ∨
        f = .signerError ∨ f = .signerPanic := by
  intro l
  induction l with
  | nil => intro idx f h; simp only [sign_loop] at h; cases h
  | cons i0 rest ih =>
    intro idx f h
    simp only [sign_loop] at h
    cases hd : digest_for c pv idx i0 with
    | error f0 =>
      simp only [hd] at h
      cases h
      rcases digest_for_error_cases hd with h1 | h1 | h1 <;> simp [h1]
    | ok om =>
      simp only [hd] at h
      cases om with
      | none => exact ih (idx + 1) f h
      | some m =>
        cases hs2 : s i0 m with
        | err e => simp only [hs2] at h; cases h; simp
        | panic => simp only [hs2] at h; cases h; simp
        | ok claim =>
          simp only [hs2] at h
          cases hrec : sign_loop c s pv rest (idx + 1) with
          | error f1 =>
            rw [hrec] at h
            simp [Except.map] at h
            rcases ih (idx + 1) f1 hrec with h1 | h1 | h1 | h1 | h1 <;> simp [← h, h1]
          | ok cs' => rw [hrec] at h; simp [Except.map] at h

lemma sign_loop_no_panic {c : SighashCache} {s : TxInput → Message → SignerOut}
    {pv : List TxOut} (hs : ∀ i m, TxInput.is_non_standard i = false → s i m ≠ .panic) :
    ∀ (l : List TxInput) (idx : Nat), sign_loop c s pv l idx ≠ .error .signerPanic := by
  intro l
  induction l with
  | nil => intro idx h; simp only [sign_loop] at h; cases h
  | cons i0 rest ih =>
    intro idx h
    simp only [sign_loop] at h
    cases hd : digest_for c pv idx i0 with
    | error f0 =>
      simp only [hd] at h
      cases h
      rcases digest_for_error_cases hd with h1 | h1 | h1 <;> cases h1
    | ok om =>
      simp only [hd] at h
      cases om with
      | none => exact ih (idx + 1) h
      | some m =>
        cases hs2 : s i0 m with
        | err e => simp only [hs2] at h; cases h
        | panic => exact hs i0 m (digest_for_some_not_nonstd hd) hs2
        | ok claim =>
          simp only [hs2] at h
          cases hrec : sign_loop c s pv rest (idx + 1) with
          | error f1 =>
            rw [hrec] at h
            simp [Except.map] at h
            exact ih (idx + 1) (by rw [hrec, h])
          | ok cs' => rw [hrec] at h; simp [Except.map] at h

lemma sign_loop_congr {c : SighashCache}
    {s s' : TxInput → Message → SignerOut}
    (hag : ∀ i m, TxInput.is_non_standard i = false → s i m = s' i m) :
    ∀ (pv : List TxOut) (l : List TxInput) (idx : Nat),
      sign_loop c s pv l idx = sign_loop c s' pv l idx := by
  intro pv
  intro l
  induction l with
  | nil => intro idx; rfl
  | cons i0 rest ih =>
    intro idx
    simp only [sign_loop]
    cases hd : digest_for c pv idx i0 with
    | error f0 => rfl
    | ok om =>
      cases om with
      | none => exact ih (idx + 1)
      | some m =>
        have heq := hag i0 m (digest_for_some_not_nonstd hd)
        simp only [heq]
        cases s' i0 m with
        | err e => rfl
        | panic => rfl
        | ok claim => rw [ih (idx + 1)]

lemma modify_at_length (f : TxIn → TxIn) :
    ∀ (l : List TxIn) (i : Nat), (modify_at f l i).length = l.length := by
  intro l
  induction l with
  | nil => intro i; cases i <;> rfl
  | cons x xs ih =>
    intro i
    cases i with
    | zero => rfl
    | succ n => simp [modify_at, ih n]

lemma modify_at_get_self (f : TxIn → TxIn) :
    ∀ (l : List TxIn) (i : Nat), (modify_at f l i).get? i = (l.get? i).map f := by
  intro l
  induction l with
  | nil => intro i; cases i <;> rfl
  | cons x xs ih =>
    intro i
    cases i with
    | zero => rfl
    | succ n => simpa [modify_at] using ih n

lemma modify_at_get_ne (f : TxIn → TxIn) :
    ∀ (l : List TxIn) (i j : Nat), i ≠ j → (modify_at f l i).get? j = l.get? j := by
  intro l
  induction l with
  | nil => intro i j _; cases i <;> rfl
  | cons x xs ih =>
    intro i j hne
    cases i with
    | zero =>
      cases j with
      | zero => exact absurd rfl hne
      | succ n => rfl
    | succ n =>
      cases j with
      | zero => rfl
      | succ p => simpa [modify_at] using ih n p (by omega)

lemma apply_claims_length :
    ∀ (cs : List (Nat × ClaimLocation)) (tx : Transaction),
      (apply_claims tx cs).input.length = tx.input.length := by
  intro cs
  induction cs with
  | nil => intro tx; rfl
  | cons p rest ih =>
    intro tx
    obtain ⟨k, cl⟩ := p
    simp only [apply_claims]
    rw [ih]
    exact modify_at_length _ tx.input k

lemma claim_write_idem (c : ClaimLocation) (x : TxIn) :
    claim_write c (claim_write c x) = claim_write c x := by
  cases c <;> rfl

lemma apply_claims_get_not_mem :
    ∀ (cs : List (Nat × ClaimLocation)) (tx : Transaction) (j : Nat),
      (∀ cl, (j, cl) ∉ cs) →
      (apply_claims tx cs).input.get? j = tx.input.get? j := by
  intro cs
  induction cs with
  | nil => intro tx j _; rfl
  | cons p rest ih =>
    intro tx j hnm
    obtain ⟨k, cl0⟩ := p
    have hk : k ≠ j := by
      intro hkj
      subst hkj
      exact hnm cl0 (List.mem_cons_self _ _)
    simp only [apply_claims]
    rw [ih _ j fun cl hc => hnm cl (List.mem_cons.mpr (Or.inr hc))]
    exact modify_at_get_ne _ tx.input k j hk

lemma apply_claims_get_mem :
    ∀ (cs : List (Nat × ClaimLocation)) (tx : Transaction) (j : Nat) (cl : ClaimLocation),
      (j, cl) ∈ cs → (∀ cl', (j, cl') ∈ cs → cl' = cl) →
      (apply_claims tx cs).input.get? j = (tx.input.get? j).map (claim_write cl) := by
  intro cs
  induction cs with
  | nil => intro tx j cl hmem; simp at hmem
  | cons p rest ih =>
    intro tx j cl hmem huniq
    obtain ⟨k, cl0⟩ := p
    simp only [apply_claims]
    by_cases hk : k = j
    · subst hk
      have hc0 : cl0 = cl := huniq cl0 (List.mem_cons_self _ _)
      subst hc0
      by_cases hm : (k, cl0) ∈ rest
      · rw [ih _ k cl0 hm fun cl' h' => huniq cl' (List.mem_cons.mpr (Or.inr h'))]
        rw [modify_at_get_self]
        cases tx.input.get? k with
        | none => rfl
        | some a => simp [claim_write_idem]
      · have hnone : ∀ cl'', (k, cl'') ∉ rest := by
          intro cl'' hmem2
          have : cl'' = cl0 := huniq cl'' (List.mem_cons.mpr (Or.inr hmem2))
          subst this
          exact hm hmem2
        rw [apply_claims_get_not_mem rest _ k hnone]
        exact modify_at_get_self _ tx.input k
    · have hmem2 : (j, cl) ∈ rest := by
        rcases List.mem_cons.mp hmem with hph | hpt
        · exact absurd (congrArg Prod.fst hph).symm hk
        · exact hpt
      rw [ih _ j cl hmem2 fun cl' h' => huniq cl' (List.mem_cons.mpr (Or.inr h'))]
      rw [modify_at_get_ne _ tx.input k j hk]

lemma reachable_flag {b : TransactionBuilder} (hb : Reachable b) :
    b.contains_taproot = b.inputs.any TxInput.is_taproot := by
  induction hb with
  | new => rfl
  | set_version b v _ ih => exact ih
  | set_lock_time b b' height _ heq ih =>
    unfold TransactionBuilder.set_lock_time at heq
    obtain ⟨a, _, hfb⟩ := Option.map_eq_some'.mp heq
    rw [← hfb]
    exact ih
  | set_return_address b a _ ih => exact ih
  | set_miner_fee b sat _ ih => exact ih
  | add_input b i _ ih =>
    cases i <;> simp [TransactionBuilder.add_input, List.any_append, TxInput.is_taproot, ih]
  | add_output b o _ ih => exact ih

lemma build_prevouts_values {b : TransactionBuilder}
    (h : ∀ i ∈ b.inputs, ((TxInput.ctx i).value).isSome = true) :
    ∃ pv, build_prevouts b = .ok pv := by
  unfold build_prevouts
  by_cases hf : b.contains_taproot
  · rw [if_pos hf]
    exact ⟨_, prevouts_of_values h⟩
  · rw [if_neg hf]
    exact ⟨[], rfl⟩

lemma sign_inputs_fn_ok {b : TransactionBuilder} {s : TxInput → Message → SignerOut}
    {t : TransactionSigned} (h : b.sign_inputs_fn s = .ok t) :
    ∃ pv cs, build_prevouts b = .ok pv ∧
      sign_loop { tx := skeleton b } s pv b.inputs 0 = .ok cs ∧
      t.tx = apply_claims (skeleton b) cs := by
  unfold TransactionBuilder.sign_inputs_fn at h
  cases hsum : sum_inputs b.inputs with
  | none => simp [hsum] at h
  | some tin =>
    simp only [hsum] at h
    cases hfee : b.miner_fee with
    | none => simp [hfee] at h
    | some fee =>
      simp only [hfee] at h
      by_cases hgt : u64_add (sum_outputs b.outputs) fee > tin
      · rw [if_pos hgt] at h
        cases h
      · rw [if_neg hgt] at h
        cases hpv : build_prevouts b with
        | error e => simp [hpv] at h
        | ok pv =>
          simp only [hpv] at h
          cases hloop : sign_loop { tx := skeleton b } s pv b.inputs 0 with
          | error f => simp [hloop] at h
          | ok cs =>
            simp only [hloop] at h
            cases h
            exact ⟨pv, cs, rfl, hloop, rfl⟩

lemma balance_fail {b : TransactionBuilder} {fee tin : Nat}
    (s : TxInput → Message → SignerOut)
    (hfee : b.miner_fee = some fee)
    (hsum : sum_inputs b.inputs = some tin)
    (hgt : u64_add (sum_outputs b.outputs) fee > tin) :
    b.sign_inputs_fn s = .fail .insufficientFunds := by
  unfold TransactionBuilder.sign_inputs_fn
  simp only [hsum, hfee]
  rw [if_pos hgt]

lemma balance_no_fail {b : TransactionBuilder} {fee tin : Nat}
    (s : TxInput → Message → SignerOut)
    (hfee : b.miner_fee = some fee)
    (hsum : sum_inputs b.inputs = some tin)
    (hngt : ¬ u64_add (sum_outputs b.outputs) fee > tin) :
    b.sign_inputs_fn s ≠ .fail .insufficientFunds := by
  unfold TransactionBuilder.sign_inputs_fn
  simp only [hsum, hfee]
  rw [if_neg hngt]
  split
  · simp
  · split
    · rename_i f hloop
      intro hc
      injection hc with hf
      subst hf
      rcases sign_loop_error_cases b.inputs 0 _ hloop with h1 | h1 | h1 | h1 | h1 <;> cases h1
    · simp

lemma sign_inputs_fn_no_value_failures {b : TransactionBuilder}
    {s : TxInput → Message → SignerOut}
    (hval : ∀ i ∈ b.inputs, (TxInput.satoshis i).isSome = true) :
    b.sign_inputs_fn s ≠ .fail .panicInputValue ∧
    b.sign_inputs_fn s ≠ .fail .missingPrevoutValue := by
  obtain ⟨tin, hsum⟩ := sum_inputs_isSome hval
  have hvalc : ∀ i ∈ b.inputs, ((TxInput.ctx i).value).isSome = true := hval
  obtain ⟨pv, hpv⟩ := build_prevouts_values hvalc
  unfold TransactionBuilder.sign_inputs_fn
  simp only [hsum]
  refine ⟨?_, ?_⟩
  all_goals
    split
    · simp
    · split
      · simp
      · split
        · rename_i e hpe
          rw [hpv] at hpe
          cases hpe
        · split
          · rename_i f hloop
            intro hc
            injection hc with hf
            subst hf
            rcases sign_loop_error_cases b.inputs 0 _ hloop with h1 | h1 | h1 | h1 | h1 <;>
              cases h1
          · simp

/-- Previous-output reference used by the concrete examples. -/
def op_ex : OutPoint := ⟨0, 0⟩

/-- Input context with a given optional value, empty script, default sequence
(0xFFFFFFFF) and empty witness. -/
def ctx_val (v : Option Nat) : InputContext :=
  { previous_output := op_ex
    value := v
    script_pubkey := []
    sequence := 4294967295
    witness := [] }

/-- Signer closure that always returns the one-byte script claim. -/
def signer_script_one : TxInput → Message → SignerOut :=
  fun _ _ => .ok (.script [1])

/-- Signer trait instance whose four operations always succeed with non-empty
material. -/
def trait_signer_ok : TransactionSigner :=
  { claim_p2pkh := fun _ _ _ => .ok [1]
    claim_p2wpkh := fun _ _ _ => .ok [[1]]
    claim_p2tr_key_path := fun _ _ _ => .ok [[1]]
    claim_p2tr_script_path := fun _ _ _ _ _ => .ok [[1]] }

/-- Scenario-B builder: one P2PKH input worth 50000, one output of 60000,
fee 0. -/
def builder_scenario_b : TransactionBuilder :=
  ((TransactionBuilder.new.add_input (.p2pkh (ctx_val (some 50000)))).add_output
    { satoshis := 60000, script_pubkey := [] }).set_miner_fee 0

/-- Builder with a single valued P2PKH input and fee 0; signing succeeds. -/
def builder_ok : TransactionBuilder :=
  (TransactionBuilder.new.add_input (.p2pkh (ctx_val (some 100)))).set_miner_fee 0

/-- The signed transaction produced from builder_ok by signer_script_one. -/
def signed_ok : TransactionSigned :=
  { tx :=
    { version := 2
      lock_time := .blocks 0
      input := [{ previous_output := op_ex, script_sig := [1], sequence := 4294967295, witness := [] }]
      output := [] } }

/-- Builder whose two outputs of 2^63 overflow the u64 output sum while its
single input is worth 1. -/
def builder_overflow_outputs : TransactionBuilder :=
  (((TransactionBuilder.new.add_input
      (.p2pkh (ctx_val (some 1)))).add_output
      { satoshis := 9223372036854775808, script_pubkey := [] }).add_output
      { satoshis := 9223372036854775808, script_pubkey := [] }).set_miner_fee 0

/-- Counterexample for C1: on a builder whose mathematical output total plus
fee (2^63 + 2^63 + 0) exceeds its input total (1), with the fee set and every
input valued, the program does not fail with the insufficient-funds error —
it signs successfully, because the u64 output accumulation wraps to 0 and the
balance check compares 0 with 1. -/
theorem c1_counterexample :
    ((builder_overflow_outputs.outputs.map TxOutput.satoshis).sum + 0 >
      (builder_overflow_outputs.inputs.map fun i => (TxInput.satoshis i).getD 0).sum) ∧
    builder_overflow_outputs.miner_fee = some 0 ∧
    (∀ i ∈ builder_overflow_outputs.inputs, (TxInput.satoshis i).isSome = true) ∧
    (builder_overflow_outputs.sign_inputs_fn signer_script_one).isOk = true ∧
    builder_overflow_outputs.sign_inputs_fn signer_script_one ≠
      .fail .insufficientFunds := by
  decide

/-- C1 (amended): the balance check compares the wrapping u64 sums the
program computes.  With a miner fee set and a value on every input (so the
input summation returns a total), signing — both the closure form
sign_inputs_fn and the trait form sign_inputs — fails with the
insufficient-funds error exactly when the wrapped sum of the outputs plus
the fee exceeds the wrapped sum of the inputs; when that inequality does not
hold, signing never fails for that reason. -/
theorem c1_balance_check (b : TransactionBuilder) (s : TxInput → Message → SignerOut)
    (S : TransactionSigner) (fee : Nat)
    (hfee : b.miner_fee = some fee)
    (hval : ∀ i ∈ b.inputs, (TxInput.satoshis i).isSome = true) :
    ∃ tin, sum_inputs b.inputs = some tin ∧
      (u64_add (sum_outputs b.outputs) fee > tin →
        b.sign_inputs_fn s = .fail .insufficientFunds ∧
        b.sign_inputs S = .fail .insufficientFunds) ∧
      (¬ u64_add (sum_outputs b.outputs) fee > tin →
        b.sign_inputs_fn s ≠ .fail .insufficientFunds ∧
        b.sign_inputs S ≠ .fail .insufficientFunds) := by
  obtain ⟨tin, hsum⟩ := sum_inputs_isSome hval
  exact ⟨tin, hsum,
    fun hgt => ⟨balance_fail s hfee hsum hgt, balance_fail (dispatch S) hfee hsum hgt⟩,
    fun hngt => ⟨balance_no_fail s hfee hsum hngt, balance_no_fail (dispatch S) hfee hsum hngt⟩⟩

/-- Witness for C1 at Scenario B: the wrapped sums are the plain ones
(60000 + 0 > 50000), so signing fails with the insufficient-funds error in
both forms. -/
theorem c1_balance_check_witness :
    builder_scenario_b.sign_inputs_fn signer_script_one = .fail .insufficientFunds ∧
    builder_scenario_b.sign_inputs trait_signer_ok = .fail .insufficientFunds := by
  obtain ⟨tin, hsum, h1, _⟩ :=
    c1_balance_check builder_scenario_b signer_script_one trait_signer_ok 0
      (by decide) (by decide)
  have htin : tin = 50000 := by
    have h50 : sum_inputs builder_scenario_b.inputs = some 50000 := by decide
    rw [h50] at hsum
    injection hsum with h
    exact h.symm
  subst htin
  exact h1 (by decide)

/-- Builder holding a P2WPKH input constructed without a value. -/
def builder_no_value : TransactionBuilder :=
  (TransactionBuilder.new.add_input (.p2wpkh (ctx_val none))).set_miner_fee 0

/-- C4 (code bug): a builder with a P2WPKH input whose value is absent makes
the signing operation abort through the unwrap panic in the input-value
summation (lib.rs line 253), for every signer and before any signer
invocation — not through the typed missing-value error the claim and the
spec describe. -/
theorem c4_missing_value_panics (s : TxInput → Message → SignerOut) (S : TransactionSigner) :
    builder_no_value.sign_inputs_fn s = .fail .panicInputValue ∧
    builder_no_value.sign_inputs S = .fail .panicInputValue :=
  ⟨rfl, rfl⟩

/-- Counterexample for C6: the lock-time configuration call panics (models as
none) on the first non-height argument 500000000, so not every configuration
operation is total. -/
theorem c6_counterexample :
    TransactionBuilder.set_lock_time TransactionBuilder.new 500000000 = none := by
  decide

/-- C6 (amended): version, miner-fee, return-address, add-input and add-output
are pure total transformations of the builder value; the lock-time call
succeeds exactly for arguments below the lock-time threshold 500000000
(valid block heights) and panics on larger ones. -/
theorem c6_config_ops (b : TransactionBuilder) (v : Int) (sat : Nat) (a : Address)
    (i : TxInput) (o : TxOutput) (h : Nat) :
    (b.set_version v).version = v ∧
    (b.set_miner_fee sat).miner_fee = some sat ∧
    (b.set_return_address a).return_address = some a ∧
    (b.add_input i).inputs = b.inputs ++ [i] ∧
    (b.add_output o).outputs = b.outputs ++ [o] ∧
    ((b.set_lock_time h).isSome ↔ h < 500000000) := by
  refine ⟨rfl, rfl, rfl, by cases i <;> rfl, rfl, ?_⟩
  unfold TransactionBuilder.set_lock_time Height.from_consensus
  by_cases hh : h < 500000000 <;> simp [hh]

/-- C8: the unconditional abort for NonStandard inputs inside the closure that
sign_inputs passes to sign_inputs_fn is unreachable; the signing loop skips
NonStandard inputs before invoking the closure, so no run of sign_inputs ever
reports a panicking signer. -/
theorem c8_dispatch_panic_unreachable (b : TransactionBuilder) (S : TransactionSigner) :
    b.sign_inputs S ≠ .fail .signerPanic := by
  have hnp : ∀ i m, TxInput.is_non_standard i = false → dispatch S i m ≠ .panic := by
    intro i m hi
    cases i with
    | non_standard ctx => simp [TxInput.is_non_standard] at hi
    | p2pkh ctx => cases h : S.claim_p2pkh ctx m 1 <;> simp [dispatch, h]
    | p2wpkh ctx => cases h : S.claim_p2wpkh ctx m 1 <;> simp [dispatch, h]
    | p2tr_key_path ctx => cases h : S.claim_p2tr_key_path ctx m 0 <;> simp [dispatch, h]
    | p2tr_script_path ctx scr cb =>
      cases h : S.claim_p2tr_script_path ctx scr cb m 0 <;> simp [dispatch, h]
  show b.sign_inputs_fn (dispatch S) ≠ .fail .signerPanic
  unfold TransactionBuilder.sign_inputs_fn
  split
  · simp
  · split
    · simp
    · split
      · simp
      · split
        · simp
        · split
          · rename_i f hloop
            intro hc
            injection hc with hf
            subst hf
            exact sign_loop_no_panic hnp b.inputs 0 hloop
          · simp

/-- Builder reached by adding one taproot key-path input. -/
def builder_taproot_one : TransactionBuilder :=
  TransactionBuilder.new.add_input (.p2tr_key_path (ctx_val (some 10)))

/-- C9: on every builder reachable through the configuration interface, the
contains_taproot flag equals the presence of a taproot variant among the
inputs, and consequently signing builds the prevout list exactly when a
taproot input is present. -/
theorem c9_taproot_flag (b : TransactionBuilder) (hb : Reachable b) :
    b.contains_taproot = b.inputs.any TxInput.is_taproot ∧
    (b.inputs.any TxInput.is_taproot = false → build_prevouts b = .ok []) ∧
    (b.inputs.any TxInput.is_taproot = true → build_prevouts b = prevouts_of b.inputs) := by
  have hf := reachable_flag hb
  refine ⟨hf, ?_, ?_⟩
  · intro h
    unfold build_prevouts
    rw [hf, h]
    simp
  · intro h
    unfold build_prevouts
    rw [hf, h]
    simp

/-- Witness for C9 at a builder holding one taproot input. -/
theorem c9_taproot_flag_witness :
    Reachable builder_taproot_one ∧
    (builder_taproot_one.contains_taproot = builder_taproot_one.inputs.any TxInput.is_taproot ∧
      (builder_taproot_one.inputs.any TxInput.is_taproot = false →
        build_prevouts builder_taproot_one = .ok []) ∧
      (builder_taproot_one.inputs.any TxInput.is_taproot = true →
        build_prevouts builder_taproot_one = prevouts_of builder_taproot_one.inputs)) :=
  ⟨Reachable.add_input _ _ Reachable.new,
    c9_taproot_flag builder_taproot_one (Reachable.add_input _ _ Reachable.new)⟩

/-- Builder with one taproot key-path input and one taproot script-path input,
both valued (the input side of Scenario C). -/
def builder_two_taproot : TransactionBuilder :=
  (TransactionBuilder.new.add_input (.p2tr_key_path (ctx_val (some 100000)))).add_input
    (.p2tr_script_path (ctx_val (some 50000)) [5] [])

/-- C2: for every reachable builder holding at least one taproot input whose
inputs all carry values, the prevout list is the per-input (value, script)
list, one entry per builder input in input order, and the digest computed for
every taproot input commits to exactly that same list. -/
theorem c2_taproot_prevouts (b : TransactionBuilder)
    (hb : Reachable b)
    (htap : b.inputs.any TxInput.is_taproot = true)
    (hval : ∀ i ∈ b.inputs, ((TxInput.ctx i).value).isSome = true) :
    build_prevouts b = .ok (b.inputs.map input_prevout) ∧
    (b.inputs.map input_prevout).length = b.inputs.length ∧
    (∀ k i, b.inputs.get? k = some i → TxInput.is_taproot i = true →
      ∃ m, digest_for { tx := skeleton b } (b.inputs.map input_prevout) k i = .ok (some m) ∧
        message_prevouts m = some (b.inputs.map input_prevout)) := by
  have hflag : b.contains_taproot = true := by rw [reachable_flag hb, htap]
  have hpv : build_prevouts b = .ok (b.inputs.map input_prevout) := by
    unfold build_prevouts
    rw [hflag]
    simp [prevouts_of_values hval]
  refine ⟨hpv, by simp, ?_⟩
  intro k i hget hts
  have hk : k < b.inputs.length := by
    rcases List.get?_eq_some.mp hget with ⟨hlt, _⟩
    exact hlt
  have hcond : (b.inputs.map input_prevout).length =
      (SighashCache.mk (skeleton b)).tx.input.length ∧
      k < (SighashCache.mk (skeleton b)).tx.input.length := by
    constructor <;> simp [skeleton, hk]
  cases i with
  | p2pkh ctx => simp [TxInput.is_taproot] at hts
  | p2wpkh ctx => simp [TxInput.is_taproot] at hts
  | non_standard ctx => simp [TxInput.is_taproot] at hts
  | p2tr_key_path ctx =>
    refine ⟨Message.taproot_key_spend (skeleton b) k (b.inputs.map input_prevout) 0, ?_, rfl⟩
    simp only [digest_for, SighashCache.taproot_key_spend_signature_hash]
    rw [if_pos hcond]
    rfl
  | p2tr_script_path ctx scr cb =>
    refine ⟨Message.taproot_script_spend (skeleton b) k (b.inputs.map input_prevout)
      (TapLeafHash.from_script scr LeafVersion.tapScript) 0, ?_, rfl⟩
    simp only [digest_for, SighashCache.taproot_script_spend_signature_hash]
    rw [if_pos hcond]
    rfl

/-- Witness for C2 at the two-taproot builder of Scenario C. -/
theorem c2_taproot_prevouts_witness :
    Reachable builder_two_taproot ∧
    builder_two_taproot.inputs.any TxInput.is_taproot = true ∧
    (∀ i ∈ builder_two_taproot.inputs, ((TxInput.ctx i).value).isSome = true) ∧
    (build_prevouts builder_two_taproot =
        .ok (builder_two_taproot.inputs.map input_prevout) ∧
      (builder_two_taproot.inputs.map input_prevout).length =
        builder_two_taproot.inputs.length ∧
      (∀ k i, builder_two_taproot.inputs.get? k = some i → TxInput.is_taproot i = true →
        ∃ m, digest_for { tx := skeleton builder_two_taproot }
            (builder_two_taproot.inputs.map input_prevout) k i = .ok (some m) ∧
          message_prevouts m = some (builder_two_taproot.inputs.map input_prevout))) :=
  ⟨Reachable.add_input _ _ (Reachable.add_input _ _ Reachable.new), by decide, by decide,
    c2_taproot_prevouts builder_two_taproot
      (Reachable.add_input _ _ (Reachable.add_input _ _ Reachable.new))
      (by decide) (by decide)⟩

/-- C5: a successful signing run certifies that the signer succeeded on every
signable input at the digest the run computed for it; contrapositively, if
the signer errors on any input it is handed, the caller gets a failure and no
signed transaction. -/
theorem c5_no_partial (b : TransactionBuilder) (s : TxInput → Message → SignerOut)
    (t : TransactionSigned) (hok : b.sign_inputs_fn s = .ok t) :
    ∃ pv, build_prevouts b = .ok pv ∧
      ∀ k i, b.inputs.get? k = some i → TxInput.is_non_standard i = false →
        ∃ m cl, digest_for { tx := skeleton b } pv k i = .ok (some m) ∧ s i m = .ok cl := by
  obtain ⟨pv, cs, hpv, hloop, _⟩ := sign_inputs_fn_ok hok
  refine ⟨pv, hpv, ?_⟩
  intro k i hget hns
  obtain ⟨m, cl, h1, h2, _, _⟩ := sign_loop_signable b.inputs 0 cs hloop k i hget hns
  rw [Nat.zero_add] at h1
  exact ⟨m, cl, h1, h2⟩

/-- Witness for C5 at a successful one-input run. -/
theorem c5_no_partial_witness :
    builder_ok.sign_inputs_fn signer_script_one = .ok signed_ok ∧
    (∃ pv, build_prevouts builder_ok = .ok pv ∧
      ∀ k i, builder_ok.inputs.get? k = some i → TxInput.is_non_standard i = false →
        ∃ m cl, digest_for { tx := skeleton builder_ok } pv k i = .ok (some m) ∧
          signer_script_one i m = .ok cl) :=
  ⟨by decide, c5_no_partial builder_ok signer_script_one signed_ok (by decide)⟩

/-- Builder holding one valued P2PKH input and one valued NonStandard input,
with fee 0. -/
def builder_with_nonstd : TransactionBuilder :=
  ((TransactionBuilder.new.add_input (.p2pkh (ctx_val (some 100)))).add_input
    (.non_standard (ctx_val (some 5)))).set_miner_fee 0

/-- Signer closure that errors exactly on NonStandard inputs and returns the
one-byte script claim otherwise. -/
def signer_err_nonstd : TxInput → Message → SignerOut :=
  fun i _ =>
    match i with
    | .non_standard _ => .err .Todo
    | _ => .ok (.script [1])

/-- Builder with one near-maximal P2PKH input (2^64 - 5), one output of 10
and fee 0; signing succeeds since 10 > 2^64 - 5 is false. -/
def builder_big_input : TransactionBuilder :=
  ((TransactionBuilder.new.add_input
      (.p2pkh (ctx_val (some 18446744073709551611)))).add_output
      { satoshis := 10, script_pubkey := [] }).set_miner_fee 0

/-- Counterexample for C7, in two parts: a signing run that succeeds turns
into a failure once a NonStandard input is appended.  Appending one without a
value aborts the run in the input-value summation (the unwrap panic), and
appending one with the value 10 to the near-maximal builder wraps the u64
input sum from 2^64 - 5 down to 5, flipping the balance check (10 > 5) into
the insufficient-funds failure.  So NonStandard inputs can make signing
fail. -/
theorem c7_counterexample :
    (builder_ok.sign_inputs_fn signer_script_one).isOk = true ∧
    (builder_ok.add_input (.non_standard (ctx_val none))).sign_inputs_fn signer_script_one =
      .fail .panicInputValue ∧
    (builder_big_input.sign_inputs_fn signer_script_one).isOk = true ∧
    (builder_big_input.add_input (.non_standard (ctx_val (some 10)))).sign_inputs_fn
      signer_script_one = .fail .insufficientFunds := by
  decide

/-- C7 (amended): NonStandard inputs are excluded from the digest loop and
from signing — their digest step is a skip rather than a failure, signers
agreeing outside NonStandard give identical signing results (the signer is
never invoked on them) and no claim is collected at their index.  They are
not excluded from the pre-loop value accounting: one without a value aborts
the input summation, and even a valued one enters the wrapping u64 input sum
and can flip the balance check.  What does hold is that when every input
carries a value, a NonStandard input can trigger neither the value-summation
panic nor the prevout-value failure. -/
theorem c7_nonstandard_excluded (b : TransactionBuilder)
    (s s' : TxInput → Message → SignerOut)
    (hag : ∀ i m, TxInput.is_non_standard i = false → s i m = s' i m)
    (hval : ∀ i ∈ b.inputs, (TxInput.satoshis i).isSome = true) :
    b.sign_inputs_fn s = b.sign_inputs_fn s' ∧
    (∀ pv k i, b.inputs.get? k = some i → TxInput.is_non_standard i = true →
      digest_for { tx := skeleton b } pv k i = .ok none) ∧
    (∀ pv cs, sign_loop { tx := skeleton b } s pv b.inputs 0 = .ok cs →
      ∀ k i, b.inputs.get? k = some i → TxInput.is_non_standard i = true →
        ∀ cl, (k, cl) ∉ cs) ∧
    b.sign_inputs_fn s ≠ .fail .panicInputValue ∧
    b.sign_inputs_fn s ≠ .fail .missingPrevoutValue := by
  obtain ⟨hp1, hp2⟩ := sign_inputs_fn_no_value_failures (s := s) hval
  refine ⟨?_, ?_, ?_, hp1, hp2⟩
  · unfold TransactionBuilder.sign_inputs_fn
    simp only [sign_loop_congr hag]
  · intro pv k i _ hns
    exact digest_for_non_standard _ pv k hns
  · intro pv cs hloop k i hget hns cl
    have := sign_loop_nonstd_not_mem b.inputs 0 cs hloop k i hget hns cl
    simpa using this

/-- Witness for C7: a builder holding a valued P2PKH input and a valued
NonStandard input, with the always-succeeding signer and the signer that
errors on NonStandard inputs. -/
theorem c7_nonstandard_excluded_witness :
    (∀ i m, TxInput.is_non_standard i = false →
      signer_script_one i m = signer_err_nonstd i m) ∧
    (∀ i ∈ builder_with_nonstd.inputs, (TxInput.satoshis i).isSome = true) ∧
    (builder_with_nonstd.sign_inputs_fn signer_script_one =
        builder_with_nonstd.sign_inputs_fn signer_err_nonstd ∧
      (∀ pv k i, builder_with_nonstd.inputs.get? k = some i →
        TxInput.is_non_standard i = true →
        digest_for { tx := skeleton builder_with_nonstd } pv k i = .ok none) ∧
      (∀ pv cs, sign_loop { tx := skeleton builder_with_nonstd } signer_script_one pv
          builder_with_nonstd.inputs 0 = .ok cs →
        ∀ k i, builder_with_nonstd.inputs.get? k = some i →
          TxInput.is_non_standard i = true → ∀ cl, (k, cl) ∉ cs) ∧
      builder_with_nonstd.sign_inputs_fn signer_script_one ≠ .fail .panicInputValue ∧
      builder_with_nonstd.sign_inputs_fn signer_script_one ≠ .fail .missingPrevoutValue) :=
  ⟨fun i m hi => by
      cases i with
      | non_standard ctx => simp [TxInput.is_non_standard] at hi
      | p2pkh ctx => rfl
      | p2wpkh ctx => rfl
      | p2tr_key_path ctx => rfl
      | p2tr_script_path ctx scr cb => rfl,
    by decide,
    c7_nonstandard_excluded builder_with_nonstd signer_script_one signer_err_nonstd
      (fun i m hi => by
        cases i with
        | non_standard ctx => simp [TxInput.is_non_standard] at hi
        | p2pkh ctx => rfl
        | p2wpkh ctx => rfl
        | p2tr_key_path ctx => rfl
        | p2tr_script_path ctx scr cb => rfl)
      (by decide)⟩

/-- Signer closure that always returns an empty script claim. -/
def signer_empty_script : TxInput → Message → SignerOut :=
  fun _ _ => .ok (.script [])

/-- Counterexample for C3: with a signer returning an empty Script claim for a
P2PKH input, signing succeeds and the resulting input has an empty
script-signature field and an empty witness, so it is not the case that
exactly one of the two is non-empty for every non-NonStandard input. -/
theorem c3_counterexample :
    TxInput.is_non_standard (.p2pkh (ctx_val (some 100))) = false ∧
    signed_input (builder_ok.sign_inputs_fn signer_empty_script) 0 =
      some { previous_output := op_ex, script_sig := [], sequence := 4294967295,
             witness := [] } := by
  decide

/-- C3 (amended): when signing succeeds and the signer only ever returns
non-empty claim material, every non-NonStandard input of the result carries
its signer claim in exactly one of the two locations — Script claims fill the
script-signature field leaving the witness empty, Witness claims fill the
witness stack leaving the script empty — while NonStandard inputs keep an
empty script and an empty witness. -/
theorem c3_placement (b : TransactionBuilder) (s : TxInput → Message → SignerOut)
    (t : TransactionSigned)
    (hok : b.sign_inputs_fn s = .ok t)
    (hne : ∀ i m cl, s i m = .ok cl → claim_nonempty cl = true) :
    t.tx.input.length = b.inputs.length ∧
    ∃ pv, build_prevouts b = .ok pv ∧
      ∀ k i, b.inputs.get? k = some i →
        (TxInput.is_non_standard i = true →
          t.tx.input.get? k = some (TxIn.from_input i) ∧
          (TxIn.from_input i).script_sig = [] ∧ (TxIn.from_input i).witness = []) ∧
        (TxInput.is_non_standard i = false →
          ∃ m cl txin, digest_for { tx := skeleton b } pv k i = .ok (some m) ∧
            s i m = .ok cl ∧ t.tx.input.get? k = some txin ∧ claim_applied cl txin ∧
            ((txin.script_sig = [] ∧ txin.witness ≠ []) ∨
             (txin.script_sig ≠ [] ∧ txin.witness = []))) := by
  obtain ⟨pv, cs, hpv, hloop, htx⟩ := sign_inputs_fn_ok hok
  constructor
  · rw [htx, apply_claims_length]
    simp [skeleton]
  refine ⟨pv, hpv, ?_⟩
  intro k i hget
  have hsk : (skeleton b).input.get? k = some (TxIn.from_input i) := by
    simp only [skeleton, List.get?_map, hget, Option.map_some']
  constructor
  · intro hns
    have hnm : ∀ cl, (k, cl) ∉ cs := by
      have h0 := sign_loop_nonstd_not_mem b.inputs 0 cs hloop k i hget hns
      simpa using h0
    refine ⟨?_, rfl, rfl⟩
    rw [htx, apply_claims_get_not_mem cs _ k hnm, hsk]
  · intro hns
    obtain ⟨m, cl, h1, h2, h3, h4⟩ := sign_loop_signable b.inputs 0 cs hloop k i hget hns
    rw [Nat.zero_add] at h1 h3 h4
    have happ : t.tx.input.get? k = some (claim_write cl (TxIn.from_input i)) := by
      rw [htx, apply_claims_get_mem cs _ k cl h3 h4, hsk]
      rfl
    refine ⟨m, cl, claim_write cl (TxIn.from_input i), h1, h2, happ, ?_, ?_⟩
    · cases cl with
      | script sc => exact ⟨rfl, rfl⟩
      | witness w => exact ⟨rfl, rfl⟩
    · have hcn := hne i m cl h2
      cases cl with
      | script sc =>
        right
        refine ⟨?_, rfl⟩
        cases sc with
        | nil => simp [claim_nonempty] at hcn
        | cons a rest => simp [claim_write]
      | witness w =>
        left
        refine ⟨rfl, ?_⟩
        cases w with
        | nil => simp [claim_nonempty] at hcn
        | cons a rest => simp [claim_write]

/-- Witness for C3 at a successful run whose signer returns the non-empty
one-byte script claim. -/
theorem c3_placement_witness :
    builder_ok.sign_inputs_fn signer_script_one = .ok signed_ok ∧
    (∀ i m cl, signer_script_one i m = .ok cl → claim_nonempty cl = true) ∧
    (signed_ok.tx.input.length = builder_ok.inputs.length ∧
      ∃ pv, build_prevouts builder_ok = .ok pv ∧
        ∀ k i, builder_ok.inputs.get? k = some i →
          (TxInput.is_non_standard i = true →
            signed_ok.tx.input.get? k = some (TxIn.from_input i) ∧
            (TxIn.from_input i).script_sig = [] ∧ (TxIn.from_input i).witness = []) ∧
          (TxInput.is_non_standard i = false →
            ∃ m cl txin, digest_for { tx := skeleton builder_ok } pv k i = .ok (some m) ∧
              signer_script_one i m = .ok cl ∧
              signed_ok.tx.input.get? k = some txin ∧ claim_applied cl txin ∧
              ((txin.script_sig = [] ∧ txin.witness ≠ []) ∨
               (txin.script_sig ≠ [] ∧ txin.witness = [])))) :=
  ⟨by decide, fun i m cl h => by cases h; decide,
    c3_placement builder_ok signer_script_one signed_ok (by decide)
      (fun i m cl h => by cases h; decide)⟩

/-- C10: a recipient built by from_keypair always holds a compressed key, so
its witness-pubkey-hash and segwit-address derivations never hit the
uncompressed-key failure the source unwraps over. -/
theorem c10_compressed_recipient (kp : KeyPair) (n : Network) :
    (Recipient.from_keypair kp).t.compressed = true ∧
    (Recipient.wpubkey_hash (Recipient.from_keypair kp)).isSome = true ∧
    ((Recipient.from_keypair kp).segwit_address n).isSome = true := by
  refine ⟨rfl, ?_, ?_⟩ <;>
    simp [Recipient.from_keypair, Recipient.wpubkey_hash, PublicKey.wpubkey_hash,
      PublicKey.new, Recipient.segwit_address, Address.p2wpkh]

end TwBitcoin
